import Mathlib

/-!
Verification of the shotgrid wrapper library (shallow embedding).

The Python modules `lib/shotgrid/helpers.py`, `lib/shotgrid/base.py` and
`lib/shotgrid/media.py` are translated into executable Lean definitions:

* Python scalar values become `PyVal`; entity field maps are flat,
  insertion-ordered association lists `Dict` (the spec's data model calls
  them "flat mapping of field name to value").
* Fallible Python code (raising `TypeError` / `ValueError` / `KeyError`)
  returns `Except PyErr`.
* Remote calls (`find`, `create`, `upload`, ...) are passed in as explicit
  oracle functions, so that each method's local control flow is a pure
  function of its inputs and the oracle's answers.

The structure `dotdictify` used for `Entity.data` is not part of the
sources provided; per the spec it is "a dict-like case-preserving wrapper
for nested attribute access", and it is modelled here as a plain ordered
key-value map.
-/

namespace Shotgrid

/-- Python scalar values: `None`, booleans, integers and strings.
Entity field maps are modelled as flat maps of scalars, following the
spec's data model ("flat mapping of field name to value"). -/
inductive PyVal where
  | vnone
  | vbool (b : Bool)
  | vint (n : Int)
  | vstr (s : String)
deriving DecidableEq, Repr

/-- Python truthiness for the modelled scalar values. -/
def truthy : PyVal → Bool
  | .vnone => false
  | .vbool b => b
  | .vint n => n != 0
  | .vstr s => s != ""

/-- Python exceptions raised by the translated code. -/
inductive PyErr where
  | typeError
  | valueError (msg : String)
  | keyError (key : String)
  | dupKeyError (dups : List PyVal)
deriving DecidableEq, Repr

/-- A Python dict with string keys: an insertion-ordered association list
with (in actual Python) unique keys. -/
abbrev Dict := List (String × PyVal)

/-- Lookup in a dict: `d[k]` when the key is present, `none` otherwise. -/
def dictFind? (d : Dict) (k : String) : Option PyVal :=
  match d with
  | [] => none
  | (k', v) :: rest => if k' = k then some v else dictFind? rest k

/-- Python `d.get(k)`: the value when present, `None` otherwise. -/
def dictGet (d : Dict) (k : String) : PyVal :=
  (dictFind? d k).getD .vnone

/-- Python `d[k] = v`: overwrite in place when the key exists, append
otherwise (dicts preserve insertion order). -/
def dictSet (d : Dict) (k : String) (v : PyVal) : Dict :=
  match d with
  | [] => [(k, v)]
  | (k', v') :: rest => if k' = k then (k, v) :: rest else (k', v') :: dictSet rest k v

/-- Python `del d[k]` (applied only when present in the sources; a no-op
here when the key is absent). -/
def dictDel (d : Dict) (k : String) : Dict :=
  d.filter (fun kv => kv.1 ≠ k)

/-- Python `str(v)` on the modelled scalars, used as a sort key. -/
def pyStr : PyVal → String
  | .vnone => "None"
  | .vbool b => if b then "True" else "False"
  | .vint n => toString n
  | .vstr s => s

/-! Section: helpers.get_highest_version

Translation of `helpers.py::get_highest_version`.  The regex search
`re.search(r'v(\d+)', s)` is modelled by an explicit left-to-right scan
for the first position holding `'v'` followed by a digit; the captured
group is the maximal digit run after that `'v'` (greedy `\d+`). -/

/-- Numeric value of a digit run (`int` applied to the captured group). -/
def digitsVal (cs : List Char) : Nat :=
  cs.foldl (fun a c => a * 10 + (c.toNat - 48)) 0

/-- Whether a character list starts with a decimal digit. -/
def headIsDigit : List Char → Bool
  | [] => false
  | c :: _ => c.isDigit

/-- First match of `v(\d+)` in a character list: the parsed capture group
at the leftmost `'v'` that is followed by at least one digit. -/
def findVNum : List Char → Option Nat
  | [] => none
  | c :: rest =>
    if c = 'v' ∧ headIsDigit rest then some (digitsVal (rest.takeWhile Char.isDigit))
    else findVNum rest

/-- Python `re.search(r'v(\d+)', s)`, returning the parsed capture group
of the first match.  A non-string argument raises `TypeError`, as
`re.search` does. -/
def reSearchV : PyVal → Except PyErr (Option Nat)
  | .vstr s => .ok (findVNum s.data)
  | _ => .error .typeError

/-- Loop body of `get_highest_version`: iterate over the strings keeping
`highest_version` (initially `None`).  On a match the source computes
`max(highest_version, version_num)`; in Python 3 `max(None, n)` raises
`TypeError`, which the translation makes explicit. -/
def ghvLoop (highest : Option Nat) : List PyVal → Except PyErr (Option Nat)
  | [] => .ok highest
  | s :: rest =>
    match reSearchV s with
    | .error e => .error e
    | .ok none => ghvLoop highest rest
    | .ok (some n) =>
      match highest with
      | none => .error .typeError
      | some h => ghvLoop (some (max h n)) rest

/-- Translation of `helpers.py::get_highest_version`. -/
def get_highest_version (version_strings : List PyVal) : Except PyErr (Option Nat) :=
  ghvLoop none version_strings

/-! Section: helpers.list_of_dicts_to_dict

Translation of `helpers.py::list_of_dicts_to_dict`.  The result maps each
processed key to the *index* of its owning record in the input list
(standing for the Python object reference stored in `result[k_val] = item`).
-/

/-- Python `str.strip()` restricted to ASCII whitespace, which is all the
sources ever split-and-strip. -/
def pyStrip (s : String) : String :=
  ⟨((s.data.dropWhile Char.isWhitespace).reverse.dropWhile Char.isWhitespace).reverse⟩

/-- Whether the optional `separator` argument is truthy (`if separator:`),
yielding the separator string when it is. -/
def sepVal : Option String → Option String
  | some s => if s = "" then none else some s
  | none => none

/-- Scanner of Python `str.split(sep)` for a non-empty separator: cut at
every left-to-right, non-overlapping occurrence, keeping empty pieces.
The fuel argument (the remaining character count) only serves structural
termination; with fuel at least the list length the fallback is never
reached. -/
def pySplitGo (sep : List Char) : Nat → List Char → List Char → List (List Char)
  | _, [], acc => [acc.reverse]
  | 0, cs, acc => [acc.reverse ++ cs]
  | n + 1, c :: rest, acc =>
    if sep.isPrefixOf (c :: rest) then
      acc.reverse :: pySplitGo sep n (List.drop sep.length (c :: rest)) []
    else
      pySplitGo sep n rest (c :: acc)

/-- Python `s.split(sep)` for a non-empty separator. -/
def pySplit (s sep : String) : List String :=
  (pySplitGo sep.data s.data.length s.data []).map (fun cs => String.mk cs)

/-- The `keys_to_process` list computed for one record: skip the record
when the field value is falsy; with a truthy separator, require a string
value (`TypeError` otherwise) and split/strip it; without one, the value
itself is the single key. -/
def keysForItem (key : String) (separator : Option String) (item : Dict) :
    Except PyErr (List PyVal) :=
  let value_for_key := dictGet item key
  if truthy value_for_key = false then .ok []
  else
    match sepVal separator with
    | some sep =>
      match value_for_key with
      | .vstr s => .ok (((pySplit s sep).map pyStrip).map PyVal.vstr)
      | _ => .error .typeError
    | none => .ok [value_for_key]

/-- Membership of a key in the accumulating result dict (`k_val in result`). -/
def rmem (result : List (PyVal × Nat)) (k : PyVal) : Bool :=
  result.any (fun kv => kv.1 = k)

/-- Python dict assignment `result[k_val] = item` on a `PyVal`-keyed dict:
overwrite in place or append. -/
def rupdate (result : List (PyVal × Nat)) (k : PyVal) (i : Nat) : List (PyVal × Nat) :=
  match result with
  | [] => [(k, i)]
  | (k', i') :: rest => if k' = k then (k, i) :: rest else (k', i') :: rupdate rest k i

/-- Python `duplicates.add(k_val)` on a set modelled as a duplicate-free
list in first-insertion order. -/
def addDup (dups : List PyVal) (k : PyVal) : List PyVal :=
  if k ∈ dups then dups else dups ++ [k]

/-- Accumulator of the main loop: the result dict under construction and
the set of duplicate keys seen so far. -/
structure LddState where
  result : List (PyVal × Nat)
  dups : List PyVal
deriving DecidableEq, Repr

/-- One step of the inner loop over `keys_to_process`: skip falsy keys,
flag a duplicate when the key is already present, then assign. -/
def lddStep (idx : Nat) (st : LddState) (k : PyVal) : LddState :=
  if truthy k = false then st
  else
    { result := rupdate st.result k idx,
      dups := if rmem st.result k then addDup st.dups k else st.dups }

/-- The outer loop over the items, threading the accumulator; `idx` is the
index of the first remaining item. -/
def lddLoop (key : String) (separator : Option String) :
    List Dict → Nat → LddState → Except PyErr LddState
  | [], _, st => .ok st
  | item :: rest, idx, st =>
    match keysForItem key separator item with
    | .error e => .error e
    | .ok ks => lddLoop key separator rest (idx + 1) (ks.foldl (lddStep idx) st)

/-- Stable insertion of one key into a list sorted by `pyStr` (equal sort
keys keep their relative order, as Python's stable `sorted` does). -/
def insSorted (x : PyVal) : List PyVal → List PyVal
  | [] => [x]
  | y :: ys => if pyStr y ≤ pyStr x then y :: insSorted x ys else x :: y :: ys

/-- Python `sorted(list(duplicates), key=str)`. -/
def sortByStr (l : List PyVal) : List PyVal :=
  l.foldl (fun acc x => insSorted x acc) []

/-- Translation of `helpers.py::list_of_dicts_to_dict`.  The early return
for empty `items` coincides with running the loop on the empty list. -/
def list_of_dicts_to_dict (items : List Dict) (key : String)
    (separator : Option String) : Except PyErr (List (PyVal × Nat)) :=
  match lddLoop key separator items 0 ⟨[], []⟩ with
  | .error e => .error e
  | .ok st =>
    if st.dups = [] then .ok st.result
    else .error (.dupKeyError (sortByStr st.dups))

/-! Section: helpers.dict_diff -/

/-- The inclusion test of the diff loop:
`key not in original or original[key] != value`. -/
def diffCond (original : Dict) (kv : String × PyVal) : Bool :=
  match dictFind? original kv.1 with
  | none => true
  | some w => w != kv.2

/-- Translation of `helpers.py::dict_diff`: iterate over `updated.items()`
assigning into an initially empty dict. -/
def dict_diff (original updated : Dict) : Dict :=
  updated.foldl
    (fun diff kv => if diffCond original kv then dictSet diff kv.1 kv.2 else diff) []

/-! Section: helpers.remove_keys

Translation of `helpers.py::remove_keys`.  The Python function optionally
mutates its argument (`update_in_place`); the mutation is made explicit by
returning both the function result and the state of the caller's dict
after the call. -/

/-- Translation of `helpers.py::remove_keys`.  Returns
`(result, caller's dict after the call)`. -/
def remove_keys (data : Dict) (keys : List String) (mode : String)
    (remove_empty : Bool) (update_in_place : Bool) :
    Except PyErr (Dict × Dict) :=
  if data = [] then .ok ([], data)
  else if mode ≠ "keep" ∧ mode ≠ "remove" then
    .error (.valueError "Mode must be either \"keep\" or \"remove\"")
  else if keys = [] ∧ remove_empty = false ∧ mode = "remove" then
    .ok (data, data)
  else
    let afterMode :=
      if mode = "remove" then data.filter (fun kv => kv.1 ∉ keys)
      else data.filter (fun kv => kv.1 ∈ keys)
    let result :=
      if remove_empty then afterMode.filter (fun kv => truthy kv.2) else afterMode
    .ok (result, if update_in_place then result else data)

/-! Section: The Entity proxy (base.py)

`Entity.data` is a `dotdictify` in the sources; modelled here as a flat
ordered map (see the header note).  Remote calls go through explicit
oracle arguments. -/

/-- Values of the payload passed to the remote `create` call: scalar
fields, one sub-dict (the injected `project` reference) and one list of
dicts (the injected `tags`). -/
inductive FieldVal where
  | scalar (v : PyVal)
  | subdict (d : Dict)
  | dictlist (l : List Dict)
deriving DecidableEq, Repr

/-- Payload of the remote `create` call. -/
abbrev CreateData := List (String × FieldVal)

/-- Generic dict assignment `d[k] = v` for any value type. -/
def assocSet {β : Type} (d : List (String × β)) (k : String) (v : β) : List (String × β) :=
  match d with
  | [] => [(k, v)]
  | (k', v') :: rest => if k' = k then (k, v) :: rest else (k', v') :: assocSet rest k v

/-- View a flat field map as a create payload of scalar fields. -/
def liftDict (d : Dict) : CreateData :=
  d.map (fun kv => (kv.1, FieldVal.scalar kv.2))

/-- The fixed pipeline tag `Entity.auto_tag = {'type': 'Tag', 'id': 341}`. -/
def auto_tag : Dict := [("type", .vstr "Tag"), ("id", .vint 341)]

/-- In-memory entity proxy: type tag, current field map, and the optional
point-in-time copy taken by `snapshot()` (`_snapshot_data`, initially
`None`). -/
structure Ent where
  entity_type : String
  data : Dict
  snapshot_data : Option Dict
deriving DecidableEq, Repr

/-- Python `self.id()`, i.e. `self.data.id` (`None` when absent). -/
def Ent.id (e : Ent) : PyVal := dictGet e.data "id"

/-- Attribute assignment `self.data.<k> = v` on the live field map. -/
def Ent.setField (e : Ent) (k : String) (v : PyVal) : Ent :=
  { e with data := dictSet e.data k v }

/-- Translation of `base.py::Entity.save`.  `projectData` is the field map
of `self.get_project()`; `create` is the remote `api().create` call,
answering with the server's field map.  The guard `if self.id():` raises
before anything else happens; the translation makes the success path
replace `data` with the server response (`self._set_data(result)`).
The `if self.auto_tag:` test in the source is always true (the class
attribute is a non-empty dict), so the tag injection is unconditional. -/
def Entity_save (e : Ent) (projectData : Dict)
    (create : String → CreateData → Dict) : Except PyErr Ent :=
  if truthy (Ent.id e) then
    .error (.valueError "Cannot save entity with id, use update() instead.")
  else
    match remove_keys e.data ["id", "type"] "remove" false false with
    | .error err => .error err
    | .ok (d, _) =>
      let d1 := assocSet (liftDict d) "project" (.subdict projectData)
      let d2 := assocSet d1 "tags" (.dictlist [auto_tag])
      .ok { e with data := create e.entity_type d2 }

/-- Translation of `base.py::Entity.snapshot`: keep a copy of the current
data (`copy.copy(self.data)`; a value copy in this model). -/
def Ent.snapshot (e : Ent) : Ent :=
  { e with snapshot_data := some e.data }

/-- Translation of `base.py::Entity.diff`: with no snapshot taken the
whole live data map is returned; otherwise the shallow `dict_diff` of the
snapshot against the live data. -/
def Ent.diff (e : Ent) : Dict :=
  match e.snapshot_data with
  | none => e.data
  | some snap => dict_diff snap e.data

/-- Translation of `base.py::Entity.has_changes`: `len(self.diff()) > 0`. -/
def Ent.has_changes (e : Ent) : Bool :=
  0 < (Ent.diff e).length

/-- Translation of `base.py::Entity._get_entity` given the list returned
by `_get_entities(..., limit=2)`: `None` for no match, the single match,
and `ValueError` for more than one. -/
def Entity_get_entity {α : Type} (entities : List α) (t code : String) :
    Except PyErr (Option α) :=
  match entities with
  | [] => .ok none
  | [e] => .ok (some e)
  | _ :: _ :: _ => .error (.valueError ("Multiple " ++ t ++ " found with code " ++ code))

/-! Section: Entity.load_entity (base.py) -/

/-- Retrieval policies of `Entity.RetrievalMethod`. -/
inductive RetrievalMethod where
  | first
  | all
  | unique
deriving DecidableEq, Repr

/-- Missing-entity policies of `Entity.MissingStrategy`. -/
inductive MissingStrategy where
  | create
  | ignore
  | raiseStrat
deriving DecidableEq, Repr

/-- Result of `load_entity`: `None`, a single entity, or (under
`RetrievalMethod.ALL`) the whole match list. -/
inductive LoadRes (α : Type) where
  | noRes
  | one (e : α)
  | many (l : List α)
deriving DecidableEq, Repr

/-- The `codes` mapping of `load_entity`: natural-key field per supported
entity type.  The Python dict is keyed by a `str`-valued enum, so lookup
with a plain string compares equal to the member values; any other value
is absent. -/
def codesMap : PyVal → Option String
  | .vstr "Project" => some "code"
  | .vstr "Asset" => some "code"
  | .vstr "Sequence" => some "code"
  | .vstr "Shot" => some "code"
  | .vstr "Task" => some "content"
  | .vstr "Version" => some "code"
  | .vstr "PublishedFile" => some "code"
  | .vstr "Playlist" => some "code"
  | .vstr "CustomEntity07" => some "code"
  | .vstr "CustomEntity06" => some "code"
  | .vstr "Group" => some "code"
  | .vstr "Person" => some "name"
  | _ => none

/-- The `retrieval_methods` mapping of `load_entity`: accessor-method name
per entity type string. -/
def methodName : PyVal → Option String
  | .vstr "Project" => some "get_projects"
  | .vstr "Person" => some "get_persons"
  | .vstr "Group" => some "get_groups"
  | .vstr "Asset" => some "get_assets"
  | .vstr "Sequence" => some "get_sequences"
  | .vstr "Shot" => some "get_shots"
  | .vstr "Task" => some "get_tasks"
  | .vstr "Version" => some "get_versions"
  | .vstr "Playlist" => some "get_playlists"
  | .vstr "Delivery" => some "get_deliveries"
  | .vstr "PublishedFile" => some "get_published_files"
  | .vstr "CustomEntity07" => some "get_ypackage"
  | .vstr "CustomEntity06" => some "get_ymedia"
  | _ => none

/-- The `entity_code` computation of `load_entity` (line
`entity_code = entity_data.get("code") if entity_data.get("code") else
entity_data.get(codes[entity_type])`).  The subscript `codes[entity_type]`
is evaluated *before* the "Unsupported entity type" validation, so an
unknown type raises `KeyError` here whenever the `"code"` value is not
truthy. -/
def entityCodeOf (entity_data : Dict) (entity_type : PyVal) : Except PyErr PyVal :=
  if truthy (dictGet entity_data "code") then .ok (dictGet entity_data "code")
  else
    match codesMap entity_type with
    | none => .error (.keyError (pyStr entity_type))
    | some f => .ok (dictGet entity_data f)

/-- Translation of `base.py::Entity.load_entity`.  `getMethod` models
`getattr(parent, retrieval_methods.get(entity_type), None)` keyed by the
method name (`None` when the parent has no such attribute); each method
answers the list of matching entities for a code.  `create_entity` models
`self.api().create_entity(entity_type, parent, data)`. -/
def load_entity {α : Type} (entity_data : Dict)
    (retrieval : RetrievalMethod) (missing : MissingStrategy)
    (getMethod : String → Option (PyVal → List α))
    (create_entity : PyVal → Dict → α) : Except PyErr (LoadRes α) :=
  if entity_data = [] then .ok .noRes
  else
    let entity_type := dictGet entity_data "type"
    let entity_id := dictGet entity_data "id"
    match entityCodeOf entity_data entity_type with
    | .error e => .error e
    | .ok entity_code =>
      if (codesMap entity_type).isNone then
        .error (.valueError ("Unsupported entity type: " ++ pyStr entity_type))
      else if truthy entity_id = false ∧ truthy entity_code = false then .ok .noRes
      else
        let ed0 := dictDel entity_data "code"
        let ed :=
          match codesMap entity_type with
          | some f => dictSet ed0 f entity_code
          | none => ed0
        if truthy entity_id then .ok (.one (create_entity entity_type ed))
        else
          let found : Option (List α) :=
            match methodName entity_type with
            | some m =>
              match getMethod m with
              | some f => some (f entity_code)
              | none => none
            | none => none
          match found with
          | some (e :: es) =>
            match retrieval with
            | .first => .ok (.one e)
            | .all => .ok (.many (e :: es))
            | .unique =>
              if 0 < es.length then
                .error (.valueError ("More than one entity found for " ++ pyStr entity_type
                  ++ " with code " ++ pyStr entity_code))
              else .ok (.one e)
          | _ =>
            match missing with
            | .create => .ok (.one (create_entity entity_type ed))
            | .raiseStrat =>
              .error (.valueError ("Entity not found: " ++ pyStr entity_type
                ++ " with code " ++ pyStr entity_code))
            | .ignore => .ok .noRes

/-! Section: Entity.get_lastest_version_number (base.py) -/

/-- A request to the remote `find` call, as assembled by the wrapper. -/
structure FindReq where
  entity : String
  filters : List (String × String × Dict)
  fields : List String
  limit : Nat
  order : List (String × String)
deriving DecidableEq, Repr

/-- The query built by `get_lastest_version_number`: the three
most-recently-created versions linked to this entity (via `sg_task` for a
Task, `entity` otherwise), fetching only `code`. -/
def glvnRequest (isTask : Bool) (selfData : Dict) : FindReq :=
  { entity := "Version",
    filters := [((if isTask then "sg_task" else "entity"), "is", selfData)],
    fields := ["code"],
    limit := 3,
    order := [("created_at", "desc")] }

/-- Translation of `base.py::Entity.get_lastest_version_number`; returns
the issued request together with the outcome.  The codes of the query
results are collected (`[r['code'] for r in results if 'code' in r]`),
`0` is returned when that list is empty, and otherwise the result of
`helpers.get_highest_version` is returned unchanged. -/
def get_lastest_version_number (isTask : Bool) (selfData : Dict)
    (find : FindReq → List Dict) : FindReq × Except PyErr PyVal :=
  let req := glvnRequest isTask selfData
  let results := find req
  let versions := results.filterMap (fun r => dictFind? r "code")
  (req,
    if versions = [] then .ok (.vint 0)
    else
      match get_highest_version versions with
      | .error e => .error e
      | .ok none => .ok .vnone
      | .ok (some n) => .ok (.vint (n : Int)))

/-! Section: Movie.upload (media.py)

The remote `upload` call is an oracle from the attempt number to either a
result or a raised `shotgun_api3.ShotgunError` (modelled by its message
string - the only exception type the loop catches). -/

/-- Translation of `media.py::Movie.check_attachment_exists` given the
`find_one` response for the parent entity: falsy field name short-circuits
to `False`; otherwise `result[field_name]` is tested for truthiness
(raising `KeyError` if the response lacks the field). -/
def check_attachment_exists (field_name : String) (findOneResult : Dict) :
    Except PyErr Bool :=
  if field_name = "" then .ok false
  else
    match dictFind? findOneResult field_name with
    | none => .error (.keyError field_name)
    | some v => .ok (truthy v)

/-- The `for i in range(10)` retry loop of `Movie.upload`: a truthy upload
result returns `True`; a falsy result or a caught `ShotgunError` moves to
the next attempt; after the loop `False`.  Returns the outcome together
with the number of upload attempts made from attempt `i` on, with `n`
iterations remaining. -/
def uploadLoop (call : Nat → Except String Bool) : Nat → Nat → Bool × Nat
  | _, 0 => (false, 0)
  | i, n + 1 =>
    match call i with
    | .ok true => (true, 1)
    | .ok false => let r := uploadLoop call (i + 1) n; (r.1, r.2 + 1)
    | .error _ => let r := uploadLoop call (i + 1) n; (r.1, r.2 + 1)

/-- Translation of `media.py::Movie.upload`.  `fileExistsOnDisk` models
`file_path and os.path.exists(file_path)`; `findOneResult` is the
`find_one` response consulted by `check_attachment_exists`.  Returns the
boolean outcome and the number of upload attempts made. -/
def Movie_upload (fileExistsOnDisk : Bool) (findOneResult : Dict)
    (call : Nat → Except String Bool) : Except PyErr (Bool × Nat) :=
  if fileExistsOnDisk = false then .ok (false, 0)
  else
    match check_attachment_exists "sg_uploaded_movie" findOneResult with
    | .error e => .error e
    | .ok true => .ok (false, 0)
    | .ok false => .ok (uploadLoop call 0 10)

/-! Section: specification-side definitions

Definitions written from the spec's words, used to state the claims about
`list_of_dicts_to_dict`; the theorems compare them with the translation
above. -/

/-- Decidable equality of `Except` results, for evaluating witnesses. -/
instance {ε α : Type} [DecidableEq ε] [DecidableEq α] : DecidableEq (Except ε α) :=
  fun a b =>
  match a, b with
  | .ok x, .ok y =>
    if h : x = y then isTrue (by rw [h]) else isFalse (by intro hh; cases hh; exact h rfl)
  | .error x, .error y =>
    if h : x = y then isTrue (by rw [h]) else isFalse (by intro hh; cases hh; exact h rfl)
  | .ok _, .error _ => isFalse (by intro hh; cases hh)
  | .error _, .ok _ => isFalse (by intro hh; cases hh)

/-- Spec wording, per record: the keys a record contributes — its field
value (split on the separator when one is given, each part
whitespace-stripped) with falsy parts skipped; no keys at all when the
field value is falsy. -/
def itemKeyList (key : String) (separator : Option String) (item : Dict) : List PyVal :=
  match keysForItem key separator item with
  | .ok ks => ks.filter truthy
  | .error _ => []

/-- Whether every record is well-typed for the fold: with a truthy
separator, every record with a truthy field value holds a string there. -/
def keysAllOk (key : String) (separator : Option String) (items : List Dict) : Bool :=
  items.all (fun it => (keysForItem key separator it).isOk)

/-- Spec wording: the processed `(key, owning record)` pairs of all
records, in processing order, numbering the records from `i`. -/
def seqFrom (key : String) (separator : Option String) :
    Nat → List Dict → List (PyVal × Nat)
  | _, [] => []
  | i, item :: rest =>
    (itemKeyList key separator item).map (fun k => (k, i))
      ++ seqFrom key separator (i + 1) rest

/-- Spec wording: the processed `(key, owning record)` pairs of all
records, records numbered from 0. -/
def specKeys (key : String) (separator : Option String) (items : List Dict) :
    List (PyVal × Nat) :=
  seqFrom key separator 0 items

/-- Multiplicity of a key among the processed keys. -/
def keyCount (seq : List (PyVal × Nat)) (k : PyVal) : Nat :=
  (seq.map Prod.fst).count k

/-- Whether a list of key/value pairs is sorted by the Python `str` of the
keys (the deterministic order of the raised duplicate report). -/
def sortedByStr : List PyVal → Bool
  | [] => true
  | [_] => true
  | x :: y :: rest => (pyStr x ≤ pyStr y) && sortedByStr (y :: rest)

/-- The loop body of `list_of_dicts_to_dict` acting on one processed
`(key, owner)` pair: `lddStep` restricted to truthy keys, which is what
the loop performs on the flattened pair sequence. -/
def stStep (st : LddState) (p : PyVal × Nat) : LddState :=
  { result := rupdate st.result p.1 p.2,
    dups := if rmem st.result p.1 then addDup st.dups p.1 else st.dups }

/-! Section: theorems -/

/-- C1: the claim states that `get_highest_version` returns the maximum
integer of the first `v<digits>` match per string — 7 on the documented
example — and `None` when no string matches.  The code initializes
`highest_version = None` and then computes `max(None, version_num)` at
the first matching string, which raises `TypeError` in Python 3: the
documented example raises instead of returning 7.  Only the no-match path
(returning `None`) behaves as claimed, witnessed by the second conjunct. -/
theorem C1_get_highest_version_example_raises :
    get_highest_version
        [.vstr "STN_6620_povs_OPS_v006", .vstr "STN_6620_ref_OPS_v007",
          .vstr "STN_6620_comp_OPS_v003"] = .error .typeError
    ∧ get_highest_version [.vstr "STN_6620_comp_OPS", .vstr "shot"] = .ok none := by
  decide

/-- C2: the claim states that `get_lastest_version_number` returns the
maximum `v(\d+)` suffix of the returned codes and 0 whenever no code
matches.  In the code: a matching code makes `get_highest_version` raise
`TypeError` (first conjunct, where the claim expects 7); codes that are
present but match-free yield `None`, not 0 (second conjunct); 0 is only
returned when no codes come back at all (third conjunct).  The request
shape — limit 3, ordered by `created_at` descending — is as claimed
(fourth conjunct). -/
theorem C2_get_lastest_version_number_eval :
    ((get_lastest_version_number false [("id", PyVal.vint 1)]
        (fun _ => [[("code", PyVal.vstr "STN_6620_ref_OPS_v007")]])).2 = .error .typeError)
    ∧ ((get_lastest_version_number false [("id", PyVal.vint 1)]
        (fun _ => [[("code", PyVal.vstr "no-match-here")]])).2 = .ok .vnone)
    ∧ ((get_lastest_version_number false [("id", PyVal.vint 1)]
        (fun _ => [])).2 = .ok (.vint 0))
    ∧ ((get_lastest_version_number false [("id", PyVal.vint 1)] (fun _ => [])).1.limit = 3
        ∧ (get_lastest_version_number false [("id", PyVal.vint 1)] (fun _ => [])).1.order
            = [("created_at", "desc")]) := by
  decide

/-- C8: the claim states that a non-empty `entity_data` with an
unsupported `"type"` makes `load_entity` raise the domain `ValueError`,
with or without a `"code"` key.  The subscript `codes[entity_type]` on
the `entity_code` line runs *before* the "Unsupported entity type"
validation, so without a truthy `"code"` value the call raises `KeyError`
instead (first conjunct); the `ValueError` is reached only when a truthy
`"code"` is present (second conjunct). -/
theorem C8_load_entity_unsupported_type :
    load_entity (α := Nat) [("type", .vstr "Foo")] .unique .raiseStrat
        (fun _ => none) (fun _ _ => 0) = .error (.keyError "Foo")
    ∧ load_entity (α := Nat) [("type", .vstr "Foo"), ("code", .vstr "x")] .unique .raiseStrat
        (fun _ => none) (fun _ _ => 0)
        = .error (.valueError "Unsupported entity type: Foo") := by
  decide

/-- C10: on an entity on which `snapshot()` has never been called
(`_snapshot_data` is still `None`), `diff()` does not raise and returns
the entire current data map, and `has_changes()` is true exactly when
that map is non-empty. -/
theorem C10_diff_without_snapshot (e : Ent) (h : e.snapshot_data = none) :
    Ent.diff e = e.data ∧ (Ent.has_changes e = true ↔ e.data ≠ []) := by
  refine ⟨by simp [Ent.diff, h], ?_⟩
  simp [Ent.has_changes, Ent.diff, h, List.length_pos]

/-- Witness for C10 at a concrete never-snapshotted entity. -/
theorem C10_diff_without_snapshot_witness :
    Ent.diff ⟨"Shot", [("code", PyVal.vstr "x")], none⟩ = [("code", PyVal.vstr "x")]
    ∧ (Ent.has_changes ⟨"Shot", [("code", PyVal.vstr "x")], none⟩ = true
        ↔ [("code", PyVal.vstr "x")] ≠ ([] : Dict)) :=
  C10_diff_without_snapshot ⟨"Shot", [("code", PyVal.vstr "x")], none⟩ rfl

/-- C6: `save()` on an entity whose data carries a populated (truthy) id
raises the double-create `ValueError`.  The outcome is the same for every
create oracle — the remote create call is never consulted — and no
modified entity is produced, so local state is unchanged. -/
theorem C6_save_with_id_raises (e : Ent) (projectData : Dict)
    (create : String → CreateData → Dict) (h : truthy (Ent.id e) = true) :
    Entity_save e projectData create
      = .error (.valueError "Cannot save entity with id, use update() instead.") := by
  simp [Entity_save, h]

/-- Witness for C6 at a concrete entity with id 5. -/
theorem C6_save_with_id_raises_witness :
    truthy (Ent.id ⟨"Shot", [("id", PyVal.vint 5)], none⟩) = true
    ∧ Entity_save ⟨"Shot", [("id", PyVal.vint 5)], none⟩ [] (fun _ _ => [])
        = .error (.valueError "Cannot save entity with id, use update() instead.") :=
  ⟨by decide,
    C6_save_with_id_raises ⟨"Shot", [("id", PyVal.vint 5)], none⟩ [] (fun _ _ => [])
      (by decide)⟩

/-- Helper: when every attempt raises the vendor error, the retry loop
runs through all its remaining iterations and reports failure. -/
theorem uploadLoop_all_errors (call : Nat → Except String Bool)
    (h : ∀ i, ∃ e, call i = .error e) : ∀ (n i : Nat), uploadLoop call i n = (false, n) := by
  intro n
  induction n with
  | zero => intro i; rfl
  | succ n ih =>
    intro i
    obtain ⟨e, he⟩ := h i
    simp [uploadLoop, he, ih]

/-- C9: for an existing local file, with the remote attachment field not
populated, if the upload call raises the vendor error on every attempt
then `Movie.upload` makes exactly 10 attempts and returns `False` without
propagating the error; with the attachment field populated it returns
`False` immediately, making no upload attempt. -/
theorem C9_upload_retry_bound (findOneResult : Dict) (v : PyVal)
    (call : Nat → Except String Bool)
    (hv : dictFind? findOneResult "sg_uploaded_movie" = some v) :
    (truthy v = false → (∀ i, ∃ err, call i = .error err) →
        Movie_upload true findOneResult call = .ok (false, 10))
    ∧ (truthy v = true → Movie_upload true findOneResult call = .ok (false, 0)) := by
  constructor
  · intro hfalse hcall
    simp [Movie_upload, check_attachment_exists, hv, hfalse,
      uploadLoop_all_errors call hcall 10 0]
  · intro htrue
    simp [Movie_upload, check_attachment_exists, hv, htrue]

/-- Witness for C9: an always-raising upload oracle is retried 10 times;
an already-populated field short-circuits with no attempt. -/
theorem C9_upload_retry_bound_witness :
    Movie_upload true [("sg_uploaded_movie", PyVal.vnone)]
        (fun _ => .error "ShotgunError") = .ok (false, 10)
    ∧ Movie_upload true [("sg_uploaded_movie", PyVal.vstr "movie.mov")]
        (fun _ => .error "ShotgunError") = .ok (false, 0) :=
  ⟨(C9_upload_retry_bound [("sg_uploaded_movie", PyVal.vnone)] PyVal.vnone
      (fun _ => .error "ShotgunError") (by decide)).1 (by decide)
      (fun _ => ⟨"ShotgunError", rfl⟩),
    (C9_upload_retry_bound [("sg_uploaded_movie", PyVal.vstr "movie.mov")]
      (PyVal.vstr "movie.mov") (fun _ => .error "ShotgunError") (by decide)).2 (by decide)⟩

/-- C4: `remove_keys` on the claim's example in both modes; and in
general, mode `"remove"` with `update_in_place = False` answers the dict
restricted to keys outside the list, mode `"keep"` the dict restricted to
the listed keys — each additionally dropping falsy values when
`remove_empty` is set — while the caller's dict (second component) is
returned unchanged. -/
theorem C4_remove_keys_spec :
    (remove_keys [("id", PyVal.vint 1), ("type", PyVal.vstr "Shot"), ("code", PyVal.vstr "x")]
        ["id", "type"] "remove" false false
        = .ok ([("code", PyVal.vstr "x")],
            [("id", PyVal.vint 1), ("type", PyVal.vstr "Shot"), ("code", PyVal.vstr "x")]))
    ∧ (remove_keys [("id", PyVal.vint 1), ("type", PyVal.vstr "Shot"), ("code", PyVal.vstr "x")]
        ["code"] "keep" false false
        = .ok ([("code", PyVal.vstr "x")],
            [("id", PyVal.vint 1), ("type", PyVal.vstr "Shot"), ("code", PyVal.vstr "x")]))
    ∧ (∀ (d : Dict) (ks : List String) (re : Bool),
        remove_keys d ks "remove" re false
          = .ok (d.filter (fun kv => decide (kv.1 ∉ ks) && (!re || truthy kv.2)), d))
    ∧ (∀ (d : Dict) (ks : List String) (re : Bool),
        remove_keys d ks "keep" re false
          = .ok (d.filter (fun kv => decide (kv.1 ∈ ks) && (!re || truthy kv.2)), d)) := by
  refine ⟨by decide, by decide, ?_, ?_⟩
  · intro d ks re
    by_cases hd : d = []
    · subst hd; simp [remove_keys]
    · cases re with
      | false =>
        by_cases hks : ks = []
        · subst hks
          simp [remove_keys, hd]
        · simp [remove_keys, hd, hks]
      | true =>
        simp [remove_keys, hd, List.filter_filter, Bool.and_comm]
  · intro d ks re
    by_cases hd : d = []
    · subst hd; simp [remove_keys]
    · cases re with
      | false => simp [remove_keys, hd]
      | true => simp [remove_keys, hd, List.filter_filter, Bool.and_comm]

/-- Helper: in a dict with duplicate-free keys, lookup of a member pair's
key answers that pair's value. -/
theorem dictFind?_of_mem {d : Dict} {p : String × PyVal}
    (hn : (d.map Prod.fst).Nodup) (hp : p ∈ d) : dictFind? d p.1 = some p.2 := by
  induction d with
  | nil => cases hp
  | cons q rest ih =>
    simp only [List.map_cons, List.nodup_cons] at hn
    rcases List.mem_cons.mp hp with h | h
    · subst h
      simp [dictFind?]
    · have hne : p.1 ≠ q.1 := by
        intro hcontra
        exact hn.1 (hcontra ▸ List.mem_map_of_mem Prod.fst h)
      have hne' : ¬ q.1 = p.1 := fun hcontra => hne hcontra.symm
      simp [dictFind?, hne', ih hn.2 h]

/-- Helper: assignment of a fresh key appends the pair at the end. -/
theorem dictSet_of_not_mem {d : Dict} {k : String} (v : PyVal)
    (hk : k ∉ d.map Prod.fst) : dictSet d k v = d ++ [(k, v)] := by
  induction d with
  | nil => rfl
  | cons q rest ih =>
    simp only [List.map_cons, List.mem_cons, not_or] at hk
    have hne' : ¬ q.1 = k := fun hcontra => hk.1 hcontra.symm
    simp [dictSet, hne', ih hk.2]

/-- Helper: every pair of `dictSet d k v` is the assigned pair or a pair
of `d`. -/
theorem mem_dictSet_sub {d : Dict} {k : String} {v : PyVal} {p : String × PyVal}
    (hp : p ∈ dictSet d k v) : p = (k, v) ∨ p ∈ d := by
  induction d with
  | nil => simpa [dictSet] using hp
  | cons q rest ih =>
    by_cases hq : q.1 = k
    · rcases List.mem_cons.mp (by simpa [dictSet, hq] using hp) with h | h
      · exact Or.inl h
      · exact Or.inr (List.mem_cons_of_mem q h)
    · rcases List.mem_cons.mp (by simpa [dictSet, hq] using hp) with h | h
      · exact Or.inr (h ▸ List.mem_cons_self q rest)
      · rcases ih h with h' | h'
        · exact Or.inl h'
        · exact Or.inr (List.mem_cons_of_mem q h')

/-- Helper: assignment keeps dict keys duplicate-free. -/
theorem nodup_keys_dictSet {d : Dict} {k : String} {v : PyVal}
    (hn : (d.map Prod.fst).Nodup) : ((dictSet d k v).map Prod.fst).Nodup := by
  induction d with
  | nil => simp [dictSet]
  | cons q rest ih =>
    simp only [List.map_cons, List.nodup_cons] at hn
    by_cases hq : q.1 = k
    · subst hq
      simpa [dictSet] using hn
    · have hq1 : q.1 ∉ (dictSet rest k v).map Prod.fst := by
        intro hmem
        obtain ⟨p, hp, hp1⟩ := List.mem_map.mp hmem
        rcases mem_dictSet_sub hp with h | h
        · exact hq (by rw [← hp1, h])
        · exact hn.1 (hp1 ▸ List.mem_map_of_mem Prod.fst h)
      simp only [dictSet, if_neg hq, List.map_cons, List.nodup_cons]
      exact ⟨hq1, ih hn.2⟩

/-- Helper: the diff-building fold, over an update map with
duplicate-free keys and an accumulator whose keys avoid the update's,
appends exactly the pairs passing the inclusion test. -/
theorem dict_diff_fold (orig : Dict) :
    ∀ (upd acc : Dict), (upd.map Prod.fst).Nodup →
      (∀ q ∈ acc.map Prod.fst, q ∉ upd.map Prod.fst) →
      List.foldl (fun diff kv => if diffCond orig kv then dictSet diff kv.1 kv.2 else diff)
          acc upd
        = acc ++ upd.filter (diffCond orig) := by
  intro upd
  induction upd with
  | nil => intro acc _ _; simp
  | cons kv rest ih =>
    intro acc hn hacc
    simp only [List.map_cons, List.nodup_cons] at hn
    cases hcond : diffCond orig kv with
    | false =>
      have hacc' : ∀ q ∈ acc.map Prod.fst, q ∉ rest.map Prod.fst :=
        fun q hq hmem => hacc q hq (List.mem_cons_of_mem _ hmem)
      rw [List.foldl_cons, if_neg (by simp [hcond]), ih acc hn.2 hacc']
      simp [List.filter_cons, hcond]
    | true =>
      have hfresh : kv.1 ∉ acc.map Prod.fst := by
        intro hmem
        exact hacc kv.1 hmem (List.mem_cons_self _ _)
      have hset : dictSet acc kv.1 kv.2 = acc ++ [kv] := by
        rw [dictSet_of_not_mem kv.2 hfresh]
      have hacc' : ∀ q ∈ (acc ++ [kv]).map Prod.fst, q ∉ rest.map Prod.fst := by
        intro q hq
        rcases List.mem_map.mp hq with ⟨p, hp, hp1⟩
        rcases List.mem_append.mp hp with h | h
        · exact fun hmem =>
            hacc q (hp1 ▸ List.mem_map_of_mem Prod.fst h) (List.mem_cons_of_mem _ hmem)
        · have : p = kv := by simpa using h
          subst this
          exact hp1 ▸ hn.1
      rw [List.foldl_cons, if_pos hcond, hset, ih (acc ++ [kv]) hn.2 hacc']
      simp [List.filter_cons, hcond]

/-- Helper: with duplicate-free update keys, `dict_diff` is the filter of
the update map by the new-or-changed test. -/
theorem dict_diff_eq_filter {orig upd : Dict} (hn : (upd.map Prod.fst).Nodup) :
    dict_diff orig upd = upd.filter (diffCond orig) := by
  have := dict_diff_fold orig upd [] hn (by simp)
  simpa [dict_diff] using this

/-- Helper: the new-or-changed filter of a single-key assignment to a
dict, diffed against that same dict, keeps exactly the assigned pair. -/
theorem filter_diffCond_dictSet {d : Dict} {k : String} {v : PyVal}
    (hn : (d.map Prod.fst).Nodup) (hv : dictFind? d k ≠ some v) :
    (dictSet d k v).filter (diffCond d) = [(k, v)] := by
  induction d with
  | nil => simp [dictSet, diffCond, dictFind?]
  | cons q rest ih =>
    simp only [List.map_cons, List.nodup_cons] at hn
    by_cases hq : q.1 = k
    · have hfind : dictFind? (q :: rest) k = some q.2 := by
        simp [dictFind?, hq]
      have hwv : (q.2 != v) = true := by
        rw [hfind] at hv
        simpa using fun h => hv (by rw [h])
      have hhead : diffCond (q :: rest) (k, v) = true := by
        simp [diffCond, hfind, hwv]
      have htail : rest.filter (diffCond (q :: rest)) = [] := by
        rw [List.filter_eq_nil_iff]
        intro p hp
        have hp1 : p.1 ≠ q.1 := by
          intro hcontra
          exact hn.1 (hcontra ▸ List.mem_map_of_mem Prod.fst hp)
        have hp1' : ¬ q.1 = p.1 := fun hcontra => hp1 hcontra.symm
        have : dictFind? (q :: rest) p.1 = some p.2 := by
          simp [dictFind?, hp1', dictFind?_of_mem hn.2 hp]
        simp [diffCond, this]
      simp [dictSet, hq, List.filter_cons, hhead, htail]
    · have hqfind : dictFind? (q :: rest) q.1 = some q.2 := by
        simp [dictFind?]
      have hhead : diffCond (q :: rest) q = false := by
        simp [diffCond, hqfind]
      have hcongr : (dictSet rest k v).filter (diffCond (q :: rest))
          = (dictSet rest k v).filter (diffCond rest) := by
        apply List.filter_congr
        intro p hp
        have hp1 : p.1 ≠ q.1 := by
          rcases mem_dictSet_sub hp with h | h
          · rw [h]; exact fun hcontra => hq hcontra.symm
          · intro hcontra
            exact hn.1 (hcontra ▸ List.mem_map_of_mem Prod.fst h)
        have hp1' : ¬ q.1 = p.1 := fun hcontra => hp1 hcontra.symm
        simp [diffCond, dictFind?, hp1']
      have hv' : dictFind? rest k ≠ some v := by
        intro hcontra
        exact hv (by simpa [dictFind?, fun h => hq h] using hcontra)
      simp [dictSet, hq, List.filter_cons, hhead, hcongr, ih hn.2 hv']

/-- Helper: the inner loop over one record's keys is the pair fold over
that record's truthy keys tagged with the record index. -/
theorem foldl_lddStep (idx : Nat) :
    ∀ (ks : List PyVal) (st : LddState),
      ks.foldl (lddStep idx) st
        = ((ks.filter truthy).map (fun k => (k, idx))).foldl stStep st := by
  intro ks
  induction ks with
  | nil => intro st; rfl
  | cons k ks ih =>
    intro st
    cases ht : truthy k with
    | false => simp [lddStep, ht, List.filter_cons, ih]
    | true => simp [lddStep, stStep, ht, List.filter_cons, ih]

/-- Helper: when every record is well-typed, the outer loop succeeds and
equals the pair fold over the flattened key sequence. -/
theorem lddLoop_eq (key : String) (sep : Option String) :
    ∀ (items : List Dict) (i : Nat) (st : LddState),
      keysAllOk key sep items = true →
      lddLoop key sep items i st = .ok ((seqFrom key sep i items).foldl stStep st) := by
  intro items
  induction items with
  | nil => intro i st _; rfl
  | cons item rest ih =>
    intro i st hok
    simp only [keysAllOk, List.all_cons, Bool.and_eq_true] at hok
    cases hk : keysForItem key sep item with
    | error e => rw [hk] at hok; simp [Except.isOk, Except.toBool] at hok
    | ok ks =>
      have hkeys : itemKeyList key sep item = ks.filter truthy := by
        simp [itemKeyList, hk]
      have hrest : keysAllOk key sep rest = true := by
        simpa [keysAllOk] using hok.2
      simp only [lddLoop, hk, seqFrom, hkeys, List.foldl_append]
      rw [ih (i + 1) (ks.foldl (lddStep i) st) hrest, foldl_lddStep]

/-- Helper: membership in the result dict after an assignment. -/
theorem rmem_rupdate (r : List (PyVal × Nat)) (k : PyVal) (i : Nat) (k2 : PyVal) :
    rmem (rupdate r k i) k2 = (rmem r k2 || decide (k2 = k)) := by
  induction r with
  | nil =>
    by_cases h : k = k2 <;> simp [rmem, rupdate, h]
    · simp [Ne.symm h]
  | cons q rest ih =>
    by_cases hq : q.1 = k
    · by_cases h : k = k2 <;> simp [rmem, rupdate, hq, h]
      · simp [Ne.symm h]
    · have ih' : ((rupdate rest k i).any fun kv => decide (kv.1 = k2))
          = ((rest.any fun kv => decide (kv.1 = k2)) || decide (k2 = k)) := by
        simpa [rmem] using ih
      simp [rmem, rupdate, hq, ih', Bool.or_assoc]

/-- Helper: assignment of a key absent from the result dict appends. -/
theorem rupdate_not_mem {r : List (PyVal × Nat)} {k : PyVal} (i : Nat)
    (h : rmem r k = false) : rupdate r k i = r ++ [(k, i)] := by
  induction r with
  | nil => rfl
  | cons q rest ih =>
    simp only [rmem, List.any_cons, Bool.or_eq_false_iff] at h
    have hq : ¬ q.1 = k := by simpa using h.1
    simp [rupdate, hq, ih (by simpa [rmem] using h.2)]

/-- Helper: on a duplicate-free key sequence whose keys are all fresh for
the accumulated result, the fold appends the sequence to the result and
flags no duplicate. -/
theorem fold_result_nodup :
    ∀ (seq : List (PyVal × Nat)) (st : LddState),
      (seq.map Prod.fst).Nodup →
      (∀ k ∈ seq.map Prod.fst, rmem st.result k = false) →
      (seq.foldl stStep st).result = st.result ++ seq
        ∧ (seq.foldl stStep st).dups = st.dups := by
  intro seq
  induction seq with
  | nil => intro st _ _; simp
  | cons p rest ih =>
    intro st hn hfresh
    simp only [List.map_cons, List.nodup_cons] at hn
    have hp : rmem st.result p.1 = false :=
      hfresh p.1 (List.mem_cons_self _ _)
    have hstep : stStep st p = ⟨st.result ++ [p], st.dups⟩ := by
      simp [stStep, hp, rupdate_not_mem p.2 hp]
    have hfresh' : ∀ k ∈ rest.map Prod.fst, rmem (st.result ++ [p]) k = false := by
      intro k hk
      have h1 : rmem st.result k = false := hfresh k (List.mem_cons_of_mem _ hk)
      have h2 : ¬ p.1 = k := fun hcontra => hn.1 (hcontra ▸ hk)
      have happ : rmem (st.result ++ [p]) k = (rmem st.result k || rmem [p] k) := by
        simp [rmem, List.any_append]
      rw [happ, h1]
      simp [rmem, h2]
    have := ih ⟨st.result ++ [p], st.dups⟩ hn.2 hfresh'
    simp only [List.foldl_cons, hstep]
    exact ⟨by simpa using this.1, this.2⟩

/-- Helper: membership in the result dict after the whole fold. -/
theorem fold_rmem :
    ∀ (seq : List (PyVal × Nat)) (st : LddState) (k : PyVal),
      rmem ((seq.foldl stStep st).result) k
        = (rmem st.result k || decide (k ∈ seq.map Prod.fst)) := by
  intro seq
  induction seq with
  | nil => intro st k; simp
  | cons p rest ih =>
    intro st k
    simp only [List.foldl_cons, ih, stStep, rmem_rupdate, List.map_cons, List.mem_cons]
    by_cases h : k = p.1 <;> simp [h, Bool.or_assoc]

/-- Helper: membership in the duplicate set after adding one key. -/
theorem addDup_mem (d : List PyVal) (k0 k : PyVal) :
    k ∈ addDup d k0 ↔ k ∈ d ∨ k = k0 := by
  by_cases h : k0 ∈ d
  · simp only [addDup, if_pos h]
    constructor
    · exact Or.inl
    · rintro (hk | hk)
      · exact hk
      · exact hk ▸ h
  · simp [addDup, if_neg h]

/-- Helper: a key is flagged as duplicate by the fold exactly when it was
already flagged, or occurs in the sequence and was either already present
in the result or occurs at least twice in the sequence. -/
theorem fold_dups_mem :
    ∀ (seq : List (PyVal × Nat)) (st : LddState) (k : PyVal),
      k ∈ (seq.foldl stStep st).dups
        ↔ k ∈ st.dups
          ∨ (k ∈ seq.map Prod.fst
              ∧ (rmem st.result k = true ∨ 2 ≤ (seq.map Prod.fst).count k)) := by
  intro seq
  induction seq with
  | nil => intro st k; simp
  | cons p rest ih =>
    intro st k
    rw [List.foldl_cons, ih]
    by_cases hk : k = p.1
    · have f1 : rmem (stStep st p).result k = true := by
        simp [stStep, rmem_rupdate, hk]
      have f2 : ((p :: rest).map Prod.fst).count k = (rest.map Prod.fst).count k + 1 := by
        rw [List.map_cons, hk, List.count_cons_self]
      have f3 : k ∈ (p :: rest).map Prod.fst := by
        simp [hk]
      have f4 : (2 ≤ (rest.map Prod.fst).count k + 1) ↔ k ∈ rest.map Prod.fst := by
        rw [← List.count_pos_iff]
        omega
      constructor
      · rintro (h | ⟨hm, _ | hc⟩)
        · by_cases hr : rmem st.result p.1 = true
          · rcases (addDup_mem st.dups p.1 k).mp (by simpa [stStep, hr] using h) with h' | h'
            · exact Or.inl h'
            · exact Or.inr ⟨f3, Or.inl (by rw [hk]; exact hr)⟩
          · exact Or.inl (by simpa [stStep, hr] using h)
        · exact Or.inr ⟨f3, Or.inr (by rw [f2]; exact f4.mpr hm)⟩
        · exact Or.inr ⟨f3, Or.inr (by rw [f2]; omega)⟩
      · rintro (h | ⟨_, hro | hc⟩)
        · left
          by_cases hr : rmem st.result p.1 = true
          · simpa [stStep, hr] using (addDup_mem st.dups p.1 k).mpr (Or.inl h)
          · simpa [stStep, hr] using h
        · left
          have hr : rmem st.result p.1 = true := by rw [← hk]; exact hro
          simpa [stStep, hr] using (addDup_mem st.dups p.1 k).mpr (Or.inr hk)
        · rw [f2] at hc
          exact Or.inr ⟨f4.mp hc, Or.inl f1⟩
    · have f1 : (rmem (stStep st p).result k = true) ↔ (rmem st.result k = true) := by
        simp [stStep, rmem_rupdate, hk]
      have f2 : ((p :: rest).map Prod.fst).count k = (rest.map Prod.fst).count k := by
        rw [List.map_cons]
        exact List.count_cons_of_ne hk _
      have f3 : (k ∈ (p :: rest).map Prod.fst) ↔ k ∈ rest.map Prod.fst := by
        simp [List.map_cons, List.mem_cons, hk]
      have f4 : (k ∈ (stStep st p).dups) ↔ k ∈ st.dups := by
        by_cases hr : rmem st.result p.1 = true
        · simp [stStep, hr, addDup_mem, hk]
        · have hr' : rmem st.result p.1 = false := by simpa using hr
          simp [stStep, hr']
      rw [f4, f2, f3]
      constructor
      · rintro (h | ⟨hm, h | h⟩)
        · exact Or.inl h
        · exact Or.inr ⟨hm, Or.inl (f1.mp h)⟩
        · exact Or.inr ⟨hm, Or.inr h⟩
      · rintro (h | ⟨hm, h | h⟩)
        · exact Or.inl h
        · exact Or.inr ⟨hm, Or.inl (f1.mpr h)⟩
        · exact Or.inr ⟨hm, Or.inr h⟩

/-- Helper: membership after one stable sorted insertion. -/
theorem mem_insSorted (x y : PyVal) :
    ∀ l, x ∈ insSorted y l ↔ x = y ∨ x ∈ l
  | [] => by simp [insSorted]
  | z :: zs => by
    by_cases hle : pyStr z ≤ pyStr y
    · simp only [insSorted, if_pos hle, List.mem_cons, mem_insSorted x y zs]
      tauto
    · have hs : insSorted y (z :: zs) = y :: z :: zs := by
        simp only [insSorted, if_neg hle]
      rw [hs]
      simp

/-- Helper: stable insertion preserves sortedness by the string key. -/
theorem sortedByStr_insSorted (x : PyVal) :
    ∀ l, sortedByStr l = true → sortedByStr (insSorted x l) = true
  | [] => fun _ => by simp [insSorted, sortedByStr]
  | [y] => fun _ => by
    by_cases hle : pyStr y ≤ pyStr x
    · simp [insSorted, hle, sortedByStr]
    · simp [insSorted, hle, sortedByStr, le_of_not_le hle]
  | y :: z :: zs => fun h => by
    simp only [sortedByStr, Bool.and_eq_true, decide_eq_true_eq] at h
    have ih := sortedByStr_insSorted x (z :: zs) h.2
    by_cases hle : pyStr y ≤ pyStr x
    · by_cases hle2 : pyStr z ≤ pyStr x
      · have ih' : sortedByStr (z :: insSorted x zs) = true := by
          simpa [insSorted, hle2] using ih
        simp [insSorted, hle, hle2, sortedByStr, h.1, ih']
      · simp [insSorted, hle, hle2, sortedByStr, le_of_not_le hle2, h.1, h.2]
    · simp [insSorted, hle, sortedByStr, le_of_not_le hle, h.1, h.2]

/-- Helper: the sorting fold preserves membership. -/
theorem mem_sortByStr_fold :
    ∀ (l acc : List PyVal) (x : PyVal),
      x ∈ l.foldl (fun a y => insSorted y a) acc ↔ x ∈ acc ∨ x ∈ l := by
  intro l
  induction l with
  | nil => intro acc x; simp
  | cons y ys ih =>
    intro acc x
    rw [List.foldl_cons, ih]
    simp only [mem_insSorted, List.mem_cons]
    tauto

/-- Helper: membership in the sorted duplicate report. -/
theorem mem_sortByStr (l : List PyVal) (x : PyVal) : x ∈ sortByStr l ↔ x ∈ l := by
  simp [sortByStr, mem_sortByStr_fold]

/-- Helper: the sorting fold keeps the accumulator sorted. -/
theorem sortedByStr_fold :
    ∀ (l acc : List PyVal), sortedByStr acc = true →
      sortedByStr (l.foldl (fun a y => insSorted y a) acc) = true := by
  intro l
  induction l with
  | nil => intro acc h; simpa using h
  | cons y ys ih =>
    intro acc h
    rw [List.foldl_cons]
    exact ih _ (sortedByStr_insSorted y acc h)

/-- Helper: the duplicate report is sorted by the string key. -/
theorem sorted_sortByStr (l : List PyVal) : sortedByStr (sortByStr l) = true :=
  sortedByStr_fold l [] rfl

/-- C3: `list_of_dicts_to_dict` answers the claim's example; in general,
for well-typed records: when no two records (nor one record twice)
produce the same processed key, it returns exactly the mapping of each
processed key (falsy field values skipping their record, split-and-strip
parts skipping falsy parts) to its owning record; and whenever some
processed key is produced twice, it raises an error naming exactly the
keys produced at least twice, sorted deterministically by their string
form. -/
theorem C3_list_of_dicts_to_dict_spec :
    (list_of_dicts_to_dict [[("code", PyVal.vstr "a,b")], [("code", PyVal.vstr "c")]]
        "code" (some ",")
        = .ok [(PyVal.vstr "a", 0), (PyVal.vstr "b", 0), (PyVal.vstr "c", 1)])
    ∧ (∀ (items : List Dict) (key : String) (sep : Option String),
        keysAllOk key sep items = true →
          (((specKeys key sep items).map Prod.fst).Nodup →
              list_of_dicts_to_dict items key sep = .ok (specKeys key sep items))
          ∧ (¬ ((specKeys key sep items).map Prod.fst).Nodup →
              ∃ ds, list_of_dicts_to_dict items key sep = .error (.dupKeyError ds)
                ∧ sortedByStr ds = true
                ∧ (∀ k, k ∈ ds ↔ 2 ≤ keyCount (specKeys key sep items) k))) := by
  refine ⟨by decide, ?_⟩
  intro items key sep hok
  have hloop : lddLoop key sep items 0 ⟨[], []⟩
      = .ok ((specKeys key sep items).foldl stStep ⟨[], []⟩) := by
    rw [specKeys]
    exact lddLoop_eq key sep items 0 ⟨[], []⟩ hok
  constructor
  · intro hnodup
    have hres := fold_result_nodup (specKeys key sep items) ⟨[], []⟩ hnodup
      (fun k _ => rfl)
    simp only [list_of_dicts_to_dict, hloop]
    simp [hres.1, hres.2]
  · intro hdup
    have hex : ∃ k0, 2 ≤ ((specKeys key sep items).map Prod.fst).count k0 := by
      by_contra hall
      push_neg at hall
      exact hdup (List.nodup_iff_count_le_one.mpr (fun a => by
        have := hall a
        omega))
    obtain ⟨k0, hk0⟩ := hex
    have hdup0 : k0 ∈ ((specKeys key sep items).foldl stStep ⟨[], []⟩).dups := by
      rw [fold_dups_mem]
      exact Or.inr ⟨List.count_pos_iff.mp (by omega), Or.inr hk0⟩
    have hne : ((specKeys key sep items).foldl stStep ⟨[], []⟩).dups ≠ [] :=
      List.ne_nil_of_mem hdup0
    refine ⟨sortByStr ((specKeys key sep items).foldl stStep ⟨[], []⟩).dups, ?_, ?_, ?_⟩
    · simp only [list_of_dicts_to_dict, hloop]
      simp [hne]
    · exact sorted_sortByStr _
    · intro k
      rw [mem_sortByStr, fold_dups_mem]
      simp only [keyCount, List.not_mem_nil, false_or]
      constructor
      · rintro ⟨hmem, h | h⟩
        · simp [rmem] at h
        · exact h
      · intro h
        exact ⟨List.count_pos_iff.mp (by omega), Or.inr h⟩

/-- Witness for C3 at the claim's example records. -/
theorem C3_list_of_dicts_to_dict_spec_witness :
    keysAllOk "code" (some ",")
        [[("code", PyVal.vstr "a,b")], [("code", PyVal.vstr "c")]] = true
    ∧ list_of_dicts_to_dict [[("code", PyVal.vstr "a,b")], [("code", PyVal.vstr "c")]]
        "code" (some ",")
        = .ok (specKeys "code" (some ",")
            [[("code", PyVal.vstr "a,b")], [("code", PyVal.vstr "c")]]) :=
  ⟨by decide,
    (C3_list_of_dicts_to_dict_spec.2
        [[("code", PyVal.vstr "a,b")], [("code", PyVal.vstr "c")]]
        "code" (some ",") (by decide)).1 (by decide)⟩

/-- C7: `_get_entity` returns `None` for zero matches, the single record
for one match, and raises for more than one; and `load_entity` with
`retrieval=UNIQUE`, when the type's accessor answers more than one
matching record, raises rather than silently picking one. -/
theorem C7_unique_lookup {α : Type} (t c : String) :
    (Entity_get_entity ([] : List α) t c = .ok none)
    ∧ (∀ e : α, Entity_get_entity [e] t c = .ok (some e))
    ∧ (∀ l : List α, 1 < l.length →
        Entity_get_entity l t c
          = .error (.valueError ("Multiple " ++ t ++ " found with code " ++ c)))
    ∧ (∀ (data : Dict) (gm : String → Option (PyVal → List α))
        (ce : PyVal → Dict → α) (missing : MissingStrategy)
        (f m : String) (fn : PyVal → List α) (l : List α),
        data ≠ [] →
        codesMap (dictGet data "type") = some f →
        truthy (dictGet data "code") = true →
        truthy (dictGet data "id") = false →
        methodName (dictGet data "type") = some m →
        gm m = some fn →
        fn (dictGet data "code") = l →
        1 < l.length →
        load_entity data .unique missing gm ce
          = .error (.valueError ("More than one entity found for "
              ++ pyStr (dictGet data "type") ++ " with code "
              ++ pyStr (dictGet data "code")))) := by
  refine ⟨rfl, fun e => rfl, ?_, ?_⟩
  · intro l hl
    match l with
    | [] => simp at hl
    | [e] => simp at hl
    | a :: b :: rest => rfl
  · intro data gm ce missing f m fn l hne hf hcode hid hm hgm hfn hlen
    cases l with
    | nil => simp at hlen
    | cons e es =>
      have hes : 0 < es.length := by
        simp only [List.length_cons] at hlen
        omega
      simp [load_entity, entityCodeOf, hne, hf, hcode, hid, hm, hgm, hfn, hes]

/-- Witness for C7 at concrete match lists and a concrete ambiguous
unique lookup. -/
theorem C7_unique_lookup_witness :
    Entity_get_entity ([] : List Nat) "Shot" "SH001" = .ok none
    ∧ Entity_get_entity [7] "Shot" "SH001" = .ok (some 7)
    ∧ Entity_get_entity [7, 8] "Shot" "SH001"
        = .error (.valueError ("Multiple " ++ "Shot" ++ " found with code " ++ "SH001"))
    ∧ load_entity [("type", PyVal.vstr "Shot"), ("code", PyVal.vstr "SH001")]
        .unique .raiseStrat
        (fun m => if m = "get_shots" then some (fun _ => [7, 8]) else none)
        (fun _ _ => (0 : Nat))
        = .error (.valueError ("More than one entity found for "
            ++ pyStr (dictGet [("type", PyVal.vstr "Shot"),
                ("code", PyVal.vstr "SH001")] "type")
            ++ " with code "
            ++ pyStr (dictGet [("type", PyVal.vstr "Shot"),
                ("code", PyVal.vstr "SH001")] "code"))) :=
  ⟨(C7_unique_lookup "Shot" "SH001").1,
    (C7_unique_lookup "Shot" "SH001").2.1 7,
    (C7_unique_lookup "Shot" "SH001").2.2.1 [7, 8] (by decide),
    (C7_unique_lookup "Shot" "SH001").2.2.2
      [("type", PyVal.vstr "Shot"), ("code", PyVal.vstr "SH001")]
      (fun m => if m = "get_shots" then some (fun _ => [7, 8]) else none)
      (fun _ _ => (0 : Nat)) .raiseStrat "code" "get_shots" (fun _ => [7, 8]) [7, 8]
      (by decide) (by decide) (by decide) (by decide) (by decide) (by simp) rfl
      (by decide)⟩

/-- C5: `dict_diff` answers the claim's example; in general (for the
duplicate-free key maps Python dicts are) it is the filter of the updated
map by "key absent from the original, or value changed"; diffing a map
against itself yields the empty map; and snapshotting an entity and then
changing exactly one field makes `diff()` return exactly that field and
`has_changes()` return true. -/
theorem C5_dict_diff_spec :
    (dict_diff [("a", PyVal.vint 1), ("b", PyVal.vint 2)]
        [("a", PyVal.vint 1), ("b", PyVal.vint 3), ("c", PyVal.vint 4)]
        = [("b", PyVal.vint 3), ("c", PyVal.vint 4)])
    ∧ (∀ (orig upd : Dict), (upd.map Prod.fst).Nodup →
        dict_diff orig upd = upd.filter (diffCond orig))
    ∧ (∀ m : Dict, (m.map Prod.fst).Nodup → dict_diff m m = [])
    ∧ (∀ (e : Ent) (k : String) (v : PyVal),
        (e.data.map Prod.fst).Nodup → dictFind? e.data k ≠ some v →
        Ent.diff (Ent.setField (Ent.snapshot e) k v) = [(k, v)]
          ∧ Ent.has_changes (Ent.setField (Ent.snapshot e) k v) = true) := by
  refine ⟨by decide, fun orig upd hn => dict_diff_eq_filter hn, ?_, ?_⟩
  · intro m hn
    rw [dict_diff_eq_filter hn, List.filter_eq_nil_iff]
    intro p hp
    simp [diffCond, dictFind?_of_mem hn hp]
  · intro e k v hn hv
    have hdiff : Ent.diff (Ent.setField (Ent.snapshot e) k v) = [(k, v)] := by
      show dict_diff e.data (dictSet e.data k v) = [(k, v)]
      rw [dict_diff_eq_filter (nodup_keys_dictSet hn)]
      exact filter_diffCond_dictSet hn hv
    refine ⟨hdiff, ?_⟩
    simp [Ent.has_changes, hdiff]

/-- Witness for C5 at concrete maps and a concrete entity. -/
theorem C5_dict_diff_spec_witness :
    dict_diff [("a", PyVal.vint 1)] [("a", PyVal.vint 1), ("b", PyVal.vint 2)]
        = ([("a", PyVal.vint 1), ("b", PyVal.vint 2)] : Dict).filter
            (diffCond [("a", PyVal.vint 1)])
    ∧ dict_diff [("a", PyVal.vint 1)] [("a", PyVal.vint 1)] = []
    ∧ Ent.diff (Ent.setField (Ent.snapshot ⟨"Shot", [("a", PyVal.vint 1)], none⟩)
        "a" (PyVal.vint 2)) = [("a", PyVal.vint 2)] :=
  ⟨C5_dict_diff_spec.2.1 [("a", PyVal.vint 1)] [("a", PyVal.vint 1), ("b", PyVal.vint 2)]
      (by decide),
    C5_dict_diff_spec.2.2.1 [("a", PyVal.vint 1)] (by decide),
    (C5_dict_diff_spec.2.2.2 ⟨"Shot", [("a", PyVal.vint 1)], none⟩ "a" (PyVal.vint 2)
      (by decide) (by decide)).1⟩

end Shotgrid
